import Mathlib

/-!
Shallow embedding of the environment-variable resolution subsystem of
`dataclass-wizard`: the files `dataclass_wizard/environ/lookups.py` and
`dataclass_wizard/errors.py`.

Modelling conventions:
* Python `dict` objects (`os.environ`, dotenv mappings, `Env.cleaned_to_env`)
  are association lists with unique keys.  `dget` is `dict.get` / `dict[k]`
  lookup, `dinsert` is `dict[k] = v` (replacing in place, preserving
  insertion order, as Python dicts do), `dupdate` is `dict.update`.
* The class-level mutable state of `Env` (`var_names`, `cleaned_to_env`,
  the `_accessed_cleaned_to_env` flag) together with the live process
  environment `os.environ` form an explicit state record `EnvState`.
  A `cached_class_property` that has not been materialised yet is `none`;
  `_accessed_cleaned_to_env` is `true` exactly when `cleaned_to_env` is
  `some`.  Python `set` construction over dict keys is modelled by `dedup`
  on the key list (set iteration order is unspecified in the source).
* A Python expression that may raise (`environ[key]` raising `KeyError` for
  an absent key) is modelled with `Option`: `none` is the raised exception.
* Python `str.lower` / `str.upper` are modelled per character with the ASCII
  case maps `Char.toLower` / `Char.toUpper` (environment-variable and field
  names are ASCII in every behaviour described by the spec).
-/

set_option autoImplicit false

namespace DW

/-! Python dict model. -/

abbrev PyDict := List (String × String)

/-- Python `d.get(k)` / `d[k]`: the value bound to `k`, if any. -/
def dget : PyDict → String → Option String
  | [], _ => none
  | (k, v) :: rest, key => if k = key then some v else dget rest key

/-- Python `d[k] = v`: replace the binding of `k` in place, or append it. -/
def dinsert : PyDict → String → String → PyDict
  | [], key, val => [(key, val)]
  | (k, v) :: rest, key, val =>
    if k = key then (key, val) :: rest else (k, v) :: dinsert rest key val

/-- Python `d.update(other)`: insert every binding of `other`, in order. -/
def dupdate (m other : PyDict) : PyDict :=
  other.foldl (fun acc p => dinsert acc p.1 p.2) m

/-- Keys of a dict, in insertion order. -/
def pyKeys (m : PyDict) : List String := m.map Prod.fst

/-- Model of Python `str.upper` (per-character ASCII case map). -/
def pyUpper (s : String) : String := ⟨s.data.map Char.toUpper⟩

/-! The normalisation function `clean` from `environ/lookups.py`:

    return s.replace('-', '').replace('_', '').lower()
-/

/-- Character-list form of `clean`: drop every `-`, then every `_`, then
lowercase the rest. -/
def cleanChars (l : List Char) : List Char :=
  ((l.filter (· != '-')).filter (· != '_')).map Char.toLower

def clean (s : String) : String := ⟨cleanChars s.data⟩

/-! Environment registry: the `Env` class of `environ/lookups.py`. -/

/-- Mutable state touched by the `Env` class: the live process environment
`os.environ`, the cached name set `Env.var_names` (`none` until first
materialised from `environ`), and the cached cleaned-name index
`Env.cleaned_to_env` (`none` until first accessed; `some` also plays the
role of the `_accessed_cleaned_to_env` flag). -/
structure EnvState where
  environ : PyDict
  var_names : Option (List String)
  cleaned_to_env : Option PyDict

/-- A state in which only the live environment is populated and no cache has
been materialised yet (a fresh Python process). -/
def freshState (env : PyDict) : EnvState :=
  { environ := env, var_names := none, cleaned_to_env := none }

/-- Access of the cached class property `Env.var_names`: on first access
materialise `set(environ)`, afterwards return the cache. -/
def varNames (st : EnvState) : List String × EnvState :=
  match st.var_names with
  | some ns => (ns, st)
  | none =>
    let ns := (pyKeys st.environ).dedup
    (ns, { st with var_names := some ns })

/-- Add cleaned entries `(clean(var), var)` for each name, in order: the dict
comprehension in `Env.cleaned_to_env` (starting from `{}`), and the
generator fed to `cleaned_to_env.update` in `Env.reload`. Later entries
overwrite earlier ones on a cleaned-key collision. -/
def addCleaned (acc : PyDict) (vars : List String) : PyDict :=
  vars.foldl (fun acc v => dinsert acc (clean v) v) acc

/-- Access of the cached class property `Env.cleaned_to_env`: on first access
build `{clean(var): var for var in cls.var_names}` (which itself forces
`var_names`) and set the accessed flag; afterwards return the cache. -/
def cleanedToEnv (st : EnvState) : PyDict × EnvState :=
  match st.cleaned_to_env with
  | some m => (m, st)
  | none =>
    let p := varNames st
    let m := addCleaned [] p.1
    (m, { p.2 with cleaned_to_env := some m })

/-- The names of `env` not yet in the cached name set:
`new_vars = set(env) - env_vars` in `Env.reload`. -/
def newEnvVars (env_vars : List String) (env : PyDict) : List String :=
  ((pyKeys env).dedup).filter (fun k => !env_vars.contains k)

/-- Model of `Env.reload(env)`: add the previously unknown names of `env` to
the cached name set, and, only if the cleaned index has been accessed,
extend it with entries for those new names. -/
def reload (st : EnvState) (env : PyDict) : EnvState :=
  let p := varNames st
  let new_vars := newEnvVars p.1 env
  let cleaned' :=
    match p.2.cleaned_to_env with
    | some m => some (addCleaned m new_vars)
    | none => none
  { p.2 with var_names := some (p.1 ++ new_vars), cleaned_to_env := cleaned' }

/-- Model of `Env.update_with_dotenv(files, dotenv_values)` on the path where
the parsed overlay mapping `dotenv_values` is supplied (the file-loading
branch `Env.dotenv_values(files)` is external I/O performed by the
`python-dotenv` library and is out of scope): first `reload` the cached
names with the overlay mapping, then `environ.update(dotenv_values)`. -/
def update_with_dotenv (st : EnvState) (dotenv_values : PyDict) : EnvState :=
  let st₁ := reload st dotenv_values
  { st₁ with environ := dupdate st₁.environ dotenv_values }

/-- Result of a resolution: an environment variable's string value, or the
distinguished marker `dataclasses.MISSING`. -/
inductive LookupResult where
  | found (value : String)
  | missing
  deriving DecidableEq

/-- Model of `try_cleaned(key)`: normalise the key, look it up in the cleaned
index (building the index on first use), and read the matched original
variable name from the live environment; `LookupResult.missing` when the
normalised key is absent from the index.  The first component is `none`
when the read `environ[key]` raises `KeyError`. -/
def try_cleaned (st : EnvState) (key : String) : Option LookupResult × EnvState :=
  let p := cleanedToEnv st
  match dget p.1 (clean key) with
  | some envKey => ((dget p.2.environ envKey).map LookupResult.found, p.2)
  | none => (some LookupResult.missing, p.2)

/-- Argument of `lookup_exact`: a single variable name or a collection of
names (`StrCollection` in the source). -/
inductive StrCollection where
  | one (s : String)
  | many (l : List String)

/-- Loop of the `nt` variant of `lookup_exact` over a collection of names:
each name is upper-cased before comparison against the cached names. -/
def lookupListNT (ns : List String) (env : PyDict) : List String → Option LookupResult
  | [] => some LookupResult.missing
  | v :: rest =>
    if ns.contains (pyUpper v) then (dget env (pyUpper v)).map LookupResult.found
    else lookupListNT ns env rest

/-- Model of the `lookup_exact` defined when `os.name == 'nt'` (platforms
whose environment variable names must be uppercase): inputs are upper-cased
before comparison against `Env.var_names`. -/
def lookup_exact_nt (st : EnvState) (var : StrCollection) :
    Option LookupResult × EnvState :=
  let p := varNames st
  match var with
  | StrCollection.one s =>
    if p.1.contains (pyUpper s) then
      ((dget p.2.environ (pyUpper s)).map LookupResult.found, p.2)
    else (some LookupResult.missing, p.2)
  | StrCollection.many l => (lookupListNT p.1 p.2.environ l, p.2)

/-- Loop of the non-`nt` variant of `lookup_exact` over a collection of
names: literal comparison, strictly in the given order. -/
def lookupListPosix (ns : List String) (env : PyDict) : List String → Option LookupResult
  | [] => some LookupResult.missing
  | v :: rest =>
    if ns.contains v then (dget env v).map LookupResult.found
    else lookupListPosix ns env rest

/-- Model of the `lookup_exact` defined when `os.name != 'nt'` (platforms
with mixed-case environment variable names): the literal input is compared
unchanged against `Env.var_names`. -/
def lookup_exact_posix (st : EnvState) (var : StrCollection) :
    Option LookupResult × EnvState :=
  let p := varNames st
  match var with
  | StrCollection.one s =>
    if p.1.contains s then ((dget p.2.environ s).map LookupResult.found, p.2)
    else (some LookupResult.missing, p.2)
  | StrCollection.many l => (lookupListPosix p.1 p.2.environ l, p.2)

/-- Model of `with_screaming_snake_case(field_name)`: `FIELD_NAME`, then
`field_name`, then the cleaned-index fallback. -/
def with_screaming_snake_case (st : EnvState) (field_name : String) :
    Option LookupResult × EnvState :=
  let p := varNames st
  let upper_key := pyUpper field_name
  if p.1.contains upper_key then
    ((dget p.2.environ upper_key).map LookupResult.found, p.2)
  else if p.1.contains field_name then
    ((dget p.2.environ field_name).map LookupResult.found, p.2)
  else try_cleaned p.2 field_name

/-- Model of `with_snake_case(field_name)`: `field_name`, then `FIELD_NAME`,
then the cleaned-index fallback. -/
def with_snake_case (st : EnvState) (field_name : String) :
    Option LookupResult × EnvState :=
  let p := varNames st
  if p.1.contains field_name then
    ((dget p.2.environ field_name).map LookupResult.found, p.2)
  else
    let upper_key := pyUpper field_name
    if p.1.contains upper_key then
      ((dget p.2.environ upper_key).map LookupResult.found, p.2)
    else try_cleaned p.2 field_name

/-- Helper for `to_snake_case`: after the first character, every uppercase
letter opens a new `_`-separated lowercase word. -/
def snakeChars : List Char → List Char
  | [] => []
  | c :: rest =>
    if c.isUpper then '_' :: c.toLower :: snakeChars rest
    else c :: snakeChars rest

/-- Modelled from the spec: `to_snake_case` lives in
`dataclass_wizard/utils/string_conv.py`, which is not among the source
files.  The spec states: "`snake_case(field)` converts camel/Pascal
boundaries to `_`-separated lowercase words (e.g., `myEnvVar` →
`my_env_var`)". -/
def to_snake_case (s : String) : String :=
  match s.data with
  | [] => ""
  | c :: rest => ⟨c.toLower :: snakeChars rest⟩

/-- Model of `with_pascal_or_camel_case(field_name)`: the literal field name,
then the snake-cased name upper-cased, then the snake-cased name, then the
cleaned-index fallback on the original field name. -/
def with_pascal_or_camel_case (st : EnvState) (field_name : String) :
    Option LookupResult × EnvState :=
  let p := varNames st
  if p.1.contains field_name then
    ((dget p.2.environ field_name).map LookupResult.found, p.2)
  else
    let snake_key := to_snake_case field_name
    let upper_key := pyUpper snake_key
    if p.1.contains upper_key then
      ((dget p.2.environ upper_key).map LookupResult.found, p.2)
    else if p.1.contains snake_key then
      ((dget p.2.environ snake_key).map LookupResult.found, p.2)
    else try_cleaned p.2 field_name

/-- Every cached name is live in `environ`. -/
def namesOk (env : PyDict) : Option (List String) → Bool
  | some ns => ns.all (fun n => (dget env n).isSome)
  | none => true

/-- Every original name stored in the cleaned index is live in `environ`. -/
def cleanedOk (env : PyDict) : Option PyDict → Bool
  | some m => m.all (fun p => (dget env p.2).isSome)
  | none => true

/-- The caches are not stale: every name they mention can actually be read
from the live environment. -/
def EnvState.consistent (st : EnvState) : Bool :=
  namesOk st.environ st.var_names && cleanedOk st.environ st.cleaned_to_env

/-! Diagnostics: `dataclass_wizard/errors.py`. -/

/-- Modelled from the spec: `normalize` is imported by `errors.py` from
`dataclass_wizard/utils/string_conv.py`, which is not among the source
files.  Per the spec glossary a cleaned/normalized key is "a variable or
field name with `-`/`_` removed and case folded" — the same normalisation
performed by `clean`. -/
def normalize (s : String) : String := clean s

/-- A declared dataclass field as seen by `MissingFields.__init__`: its name
and whether `f.default` / `f.default_factory` is `dataclasses.MISSING`. -/
structure PyField where
  name : String
  default_is_MISSING : Bool
  default_factory_is_MISSING : Bool

/-- State of a `MissingFields` error after `__init__`: the supplied field
names, the computed missing field names, and whether the key-transform hint
(the `key transform` and `resolution` kwargs) was appended. -/
structure MissingFields where
  fields : List String
  missing_fields : List String
  hint_appended : Bool

/-- Model of `MissingFields.__init__(base_err, obj, cls, cls_kwargs,
cls_fields)` restricted to the data the diagnostic computes from:
`obj_keys` are the keys of the input JSON object `obj`, `cls_kwargs_keys`
the keys of the supplied keyword dict `cls_kwargs`.  `missing_fields` is
the declared fields not supplied and lacking both a default and a default
factory; the hint is appended when `next((f for f in missing_fields if
normalize(f) in normalized_json_keys), None)` is truthy (a non-empty
string). -/
def mkMissingFields (obj_keys : List String) (cls_kwargs_keys : List String)
    (cls_fields : List PyField) : MissingFields :=
  let fields := cls_kwargs_keys
  let missing_fields := (cls_fields.filter (fun f =>
      !fields.contains f.name
      && f.default_is_MISSING && f.default_factory_is_MISSING)).map PyField.name
  let normalized_json_keys := obj_keys.map normalize
  let hint :=
    match missing_fields.find? (fun f => normalized_json_keys.contains (normalize f)) with
    | some f => f != ""
    | none => false
  { fields := fields, missing_fields := missing_fields, hint_appended := hint }

/-- State of a `ParseError` as used by its `message` property.  String-valued
views of the constructor arguments are stored (`type_name`, `repr` and
`str` rendering of Python objects are folded into the stored strings);
`json_object` is `some` of the `json.dumps` rendering when the attribute is
truthy, `none` otherwise; `kwargs` is the extra debug context in insertion
order, values already rendered. -/
structure ParseError where
  class_name : Option String
  field_name : Option String
  e_str : String
  o_repr : String
  ann_type_name : String
  obj_type_name : String
  json_object : Option String
  kwargs : PyDict

/-- Python `None`-defaulting rendering of an optional name inside an f-string. -/
def fmtOpt : Option String → String
  | some s => s
  | none => "None"

/-- Trailing key/value debug context: `'\n  '.join(f'{k}: {v}' ...)` appended
to a message when `kwargs` is non-empty. -/
def kwargsPart (kwargs : PyDict) (msg : String) : String :=
  if kwargs.isEmpty then msg
  else msg ++ "\n  " ++ String.intercalate "\n  " (kwargs.map (fun p => p.1 ++ ": " ++ p.2))

/-- Model of the `ParseError.message` property.  It renders the template and,
as a side effect, stores the dumped `json_object` into `kwargs` when the
attribute is truthy — the returned pair is (rendered message, object state
after the call). -/
def ParseError.message (p : ParseError) : String × ParseError :=
  let msg := "Failure parsing field `" ++ fmtOpt p.field_name ++ "` in class `"
      ++ fmtOpt p.class_name ++ "`. Expected a type " ++ p.ann_type_name
      ++ ", got " ++ p.obj_type_name ++ ".\n  value: " ++ p.o_repr
      ++ "\n  error: " ++ p.e_str
  let kwargs' :=
    match p.json_object with
    | some j => dinsert p.kwargs "json_object" j
    | none => p.kwargs
  (kwargsPart kwargs' msg, { p with kwargs := kwargs' })

/-- State of a `MissingVars` error after `__init__` (field `prefix0` is the
source attribute `prefix`, renamed because `prefix` is reserved in Lean). -/
structure MissingVars where
  class_name : String
  fields : String
  def_resolution : String
  init_resolution : String
  prefix0 : String

/-- Model of `MissingVars.__init__(cls, missing_vars)`: each entry of
`missing_vars` is `(field name, type name, repr of the default value)`. -/
def mkMissingVars (cls_name : String)
    (missing_vars : List (String × String × String)) : MissingVars :=
  let indent := "    "
  let fields := String.intercalate "\n" (missing_vars.map (fun f => indent ++ "- " ++ f.1))
  let def_resolution := String.intercalate "\n"
      (("class " ++ cls_name ++ ":")
        :: missing_vars.map (fun f => indent ++ f.1 ++ ": " ++ f.2.1 ++ " = " ++ f.2.2))
  let init_vars := String.intercalate ", "
      (missing_vars.map (fun f => f.1 ++ "=" ++ f.2.2))
  let init_resolution := "instance = " ++ cls_name ++ "(" ++ init_vars ++ ")"
  let n := missing_vars.length
  let prefix0 :=
    if n > 1 then "There are " ++ toString n ++ " required fields"
    else "There is " ++ toString n ++ " required field"
  { class_name := cls_name, fields := fields, def_resolution := def_resolution,
    init_resolution := init_resolution, prefix0 := prefix0 }

/-- Model of the `MissingVars.message` property (a pure rendering of the
state computed by `__init__`). -/
def MissingVars.message (e : MissingVars) : String :=
  e.prefix0 ++ " in class `" ++ e.class_name ++ "` missing in the Environment:\n"
    ++ e.fields
    ++ "\n\nresolution #1: set a default value for any optional fields, as below.\n\n"
    ++ e.def_resolution
    ++ "\n\n...\nresolution #2: pass in values for required fields to "
    ++ e.class_name ++ ".__init__():\n\n    " ++ e.init_resolution

/-! Theorems.  First, facts about the dict model and `clean`. -/

theorem dget_eq_some_mem {m : PyDict} {k v : String} (h : dget m k = some v) :
    (k, v) ∈ m := by
  induction m with
  | nil => simp [dget] at h
  | cons p rest ih =>
    obtain ⟨k', v'⟩ := p
    rw [dget] at h
    by_cases hk : k' = k
    · rw [if_pos hk] at h
      cases h
      subst hk
      exact List.mem_cons_self _ _
    · rw [if_neg hk] at h
      exact List.mem_cons_of_mem _ (ih h)

theorem dget_isSome_of_mem_keys {m : PyDict} {k : String} (h : k ∈ pyKeys m) :
    (dget m k).isSome = true := by
  induction m with
  | nil => simp [pyKeys] at h
  | cons p rest ih =>
    obtain ⟨k', v'⟩ := p
    rw [dget]
    by_cases hk : k' = k
    · rw [if_pos hk]; rfl
    · rw [if_neg hk]
      apply ih
      simp [pyKeys] at h ⊢
      rcases h with h | h
      · exact absurd h.symm hk
      · exact h

theorem mem_dinsert {m : PyDict} {k v : String} {p : String × String}
    (h : p ∈ dinsert m k v) : p ∈ m ∨ p = (k, v) := by
  induction m with
  | nil => simp [dinsert] at h; right; exact h
  | cons q rest ih =>
    obtain ⟨k', v'⟩ := q
    rw [dinsert] at h
    by_cases hk : k' = k
    · rw [if_pos hk] at h
      rcases List.mem_cons.mp h with h | h
      · right; exact h
      · left; exact List.mem_cons_of_mem _ h
    · rw [if_neg hk] at h
      rcases List.mem_cons.mp h with h | h
      · left; exact h ▸ List.mem_cons_self _ _
      · rcases ih h with h | h
        · left; exact List.mem_cons_of_mem _ h
        · right; exact h

theorem dget_dinsert_ne {m : PyDict} {k k' v : String} (h : k' ≠ k) :
    dget (dinsert m k v) k' = dget m k' := by
  induction m with
  | nil => simp [dinsert, dget, Ne.symm h]
  | cons q rest ih =>
    obtain ⟨k₀, v₀⟩ := q
    rw [dinsert]
    by_cases hk : k₀ = k
    · rw [if_pos hk, dget, dget, if_neg (fun h' => h h'.symm), hk,
        if_neg (fun h' => h h'.symm)]
    · rw [if_neg hk, dget, dget]
      by_cases hk' : k₀ = k'
      · rw [if_pos hk', if_pos hk']
      · rw [if_neg hk', if_neg hk', ih]

theorem char_toNat_ofNat {n : Nat} (h : n < 55296) : (Char.ofNat n).toNat = n := by
  have hv : n.isValidChar := Or.inl h
  rw [Char.ofNat, dif_pos hv]
  simp [Char.ofNatAux, Char.toNat, UInt32.toNat, BitVec.toNat_ofNatLt]

theorem char_toNat_inj {a b : Char} (h : a.toNat = b.toNat) : a = b :=
  Char.ext (UInt32.ext h)

theorem char_ne_of_toNat_ne {a b : Char} (h : a.toNat ≠ b.toNat) : a ≠ b :=
  fun he => h (congrArg Char.toNat he)

theorem toLower_eq (c : Char) :
    Char.toLower c =
      if c.toNat ≥ 65 ∧ c.toNat ≤ 90 then Char.ofNat (c.toNat + 32) else c := rfl

theorem toLower_toNat_cases (c : Char) :
    ((Char.toLower c).toNat = c.toNat + 32 ∧ 65 ≤ c.toNat ∧ c.toNat ≤ 90)
    ∨ ((Char.toLower c).toNat = c.toNat ∧ ¬(65 ≤ c.toNat ∧ c.toNat ≤ 90)) := by
  rw [toLower_eq]
  by_cases h : c.toNat ≥ 65 ∧ c.toNat ≤ 90
  · left
    rw [if_pos h]
    exact ⟨char_toNat_ofNat (by omega), h.1, h.2⟩
  · right
    rw [if_neg h]
    exact ⟨rfl, h⟩

theorem toLower_idem (c : Char) : c.toLower.toLower = c.toLower := by
  apply char_toNat_inj
  rcases toLower_toNat_cases c.toLower with ⟨h₁, h₂⟩ | ⟨h₁, _⟩
  · rcases toLower_toNat_cases c with ⟨h₃, h₄⟩ | ⟨h₃, h₄⟩ <;> omega
  · exact h₁

/-- Lowercasing never produces the separators dropped by `clean`. -/
theorem toLower_sep (c : Char) (hm : c ≠ '-') (hu : c ≠ '_') :
    c.toLower ≠ '-' ∧ c.toLower ≠ '_' := by
  have hm' : c.toNat ≠ 45 := fun h => hm (char_toNat_inj h)
  have hu' : c.toNat ≠ 95 := fun h => hu (char_toNat_inj h)
  have h45 : ('-' : Char).toNat = 45 := rfl
  have h95 : ('_' : Char).toNat = 95 := rfl
  constructor
  · apply char_ne_of_toNat_ne
    rw [h45]
    rcases toLower_toNat_cases c with ⟨h₁, h₂, h₃⟩ | ⟨h₁, _⟩ <;> omega
  · apply char_ne_of_toNat_ne
    rw [h95]
    rcases toLower_toNat_cases c with ⟨h₁, h₂, h₃⟩ | ⟨h₁, _⟩ <;> omega

theorem cleanChars_cons (c : Char) (l : List Char) :
    cleanChars (c :: l) =
      if c ≠ '-' ∧ c ≠ '_' then c.toLower :: cleanChars l else cleanChars l := by
  rw [cleanChars, List.filter_cons]
  by_cases hm : c = '-'
  · simp [cleanChars, hm]
  · rw [if_pos (bne_iff_ne.mpr hm), List.filter_cons]
    by_cases hu : c = '_'
    · simp [cleanChars, hu]
    · rw [if_pos (bne_iff_ne.mpr hu), List.map_cons, if_pos ⟨hm, hu⟩]
      rfl

theorem cleanChars_idem (l : List Char) : cleanChars (cleanChars l) = cleanChars l := by
  induction l with
  | nil => rfl
  | cons c l ih =>
    rw [cleanChars_cons]
    by_cases h : c ≠ '-' ∧ c ≠ '_'
    · rw [if_pos h, cleanChars_cons,
        if_pos (toLower_sep c h.1 h.2), toLower_idem, ih]
    · rw [if_neg h, ih]

/-- Claim C9: the normalization function `clean` is idempotent — for every
string `s`, `clean (clean s) = clean s`, where `clean` removes all `-` and
`_` characters and lower-cases the result. -/
theorem claim_C9_clean_idempotent (s : String) : clean (clean s) = clean s :=
  congrArg String.mk (cleanChars_idem s.data)

/-! Facts about the registry state accessors. -/

theorem contains_iff {l : List String} {a : String} : l.contains a = true ↔ a ∈ l :=
  List.elem_iff

theorem dget_dinsert_self (m : PyDict) (k v : String) :
    dget (dinsert m k v) k = some v := by
  induction m with
  | nil => simp [dinsert, dget]
  | cons q rest ih =>
    obtain ⟨k₀, v₀⟩ := q
    rw [dinsert]
    by_cases hk : k₀ = k
    · rw [if_pos hk, dget, if_pos rfl]
    · rw [if_neg hk, dget, if_neg hk, ih]

theorem dinsert_dinsert_same (m : PyDict) (k v : String) :
    dinsert (dinsert m k v) k v = dinsert m k v := by
  induction m with
  | nil => simp [dinsert]
  | cons q rest ih =>
    obtain ⟨k₀, v₀⟩ := q
    rw [dinsert]
    by_cases hk : k₀ = k
    · rw [if_pos hk, dinsert, if_pos rfl]
    · rw [if_neg hk, dinsert, if_neg hk, ih]

theorem dget_eq_none_of_not_mem_keys {m : PyDict} {k : String} (h : k ∉ pyKeys m) :
    dget m k = none := by
  induction m with
  | nil => rfl
  | cons q rest ih =>
    obtain ⟨k₀, v₀⟩ := q
    have h₀ : k₀ ≠ k := fun he => h (by simp [pyKeys, he])
    rw [dget, if_neg h₀]
    exact ih (fun hm => h (by simp [pyKeys] at hm ⊢; right; exact hm))

theorem dget_dupdate_of_none {dv : PyDict} {k : String} (h : dget dv k = none) :
    ∀ m : PyDict, dget (dupdate m dv) k = dget m k := by
  induction dv with
  | nil => intro m; rfl
  | cons q dv ih =>
    obtain ⟨k₀, v₀⟩ := q
    intro m
    rw [dget] at h
    by_cases hk : k₀ = k
    · rw [if_pos hk] at h; cases h
    · rw [if_neg hk] at h
      have : dget (dupdate (dinsert m k₀ v₀) dv) k = dget (dinsert m k₀ v₀) k := ih h _
      calc dget (dupdate m ((k₀, v₀) :: dv)) k
          = dget (dinsert m k₀ v₀) k := this
        _ = dget m k := dget_dinsert_ne (fun he => hk he.symm)

theorem dget_dupdate_of_some {dv : PyDict} {k v : String} (hnd : (pyKeys dv).Nodup)
    (h : dget dv k = some v) : ∀ m : PyDict, dget (dupdate m dv) k = some v := by
  induction dv with
  | nil => simp [dget] at h
  | cons q dv ih =>
    obtain ⟨k₀, v₀⟩ := q
    intro m
    rw [dget] at h
    rw [pyKeys, List.map_cons, List.nodup_cons] at hnd
    by_cases hk : k₀ = k
    · rw [if_pos hk] at h
      have hnone : dget dv k = none :=
        dget_eq_none_of_not_mem_keys (hk ▸ hnd.1)
      rw [show dget (dupdate m ((k₀, v₀) :: dv)) k
            = dget (dinsert m k₀ v₀) k from dget_dupdate_of_none hnone _,
        hk, dget_dinsert_self]
      exact h
    · rw [if_neg hk] at h
      exact ih hnd.2 h _

theorem varNames_spec (st : EnvState) :
    (varNames st).2 = { st with var_names := some (varNames st).1 } := by
  obtain ⟨env, vn, cl⟩ := st
  cases vn <;> rfl

theorem varNames_environ (st : EnvState) : (varNames st).2.environ = st.environ := by
  rw [varNames_spec]

theorem varNames_cleaned (st : EnvState) :
    (varNames st).2.cleaned_to_env = st.cleaned_to_env := by
  rw [varNames_spec]

theorem varNames_var_names (st : EnvState) :
    (varNames st).2.var_names = some (varNames st).1 := by
  rw [varNames_spec]

theorem varNames_of_some {st : EnvState} {ns : List String}
    (h : st.var_names = some ns) : varNames st = (ns, st) := by
  obtain ⟨env, vn, cl⟩ := st
  cases vn with
  | none => exact absurd h (by simp)
  | some ns' =>
    have h' : some ns' = some ns := h
    injection h' with h''
    subst h''
    rfl

theorem varNames_live (st : EnvState) (h : st.consistent = true) :
    ∀ n ∈ (varNames st).1, (dget st.environ n).isSome = true := by
  obtain ⟨env, vn, cl⟩ := st
  cases vn with
  | none =>
    intro n hn
    exact dget_isSome_of_mem_keys (List.mem_dedup.mp hn)
  | some ns =>
    intro n hn
    simp only [EnvState.consistent, namesOk, Bool.and_eq_true, List.all_eq_true] at h
    exact h.1 n hn

theorem varNames_consistent (st : EnvState) (h : st.consistent = true) :
    (varNames st).2.consistent = true := by
  obtain ⟨env, vn, cl⟩ := st
  cases vn with
  | some ns => exact h
  | none =>
    simp only [EnvState.consistent, varNames, namesOk, cleanedOk, Bool.and_eq_true,
      List.all_eq_true] at h ⊢
    refine ⟨fun n hn => dget_isSome_of_mem_keys (List.mem_dedup.mp hn), h.2⟩

theorem mem_addCleaned {acc : PyDict} {vars : List String} {p : String × String}
    (h : p ∈ addCleaned acc vars) : p ∈ acc ∨ p.2 ∈ vars := by
  induction vars generalizing acc with
  | nil => left; exact h
  | cons v vs ih =>
    rcases ih (show p ∈ addCleaned (dinsert acc (clean v) v) vs from h) with h | h
    · rcases mem_dinsert h with h | h
      · left; exact h
      · right; rw [h]; exact List.mem_cons_self _ _
    · right; exact List.mem_cons_of_mem _ h

theorem dget_addCleaned_nomatch {acc : PyDict} {vars : List String} {k : String}
    (h : ∀ v ∈ vars, clean v ≠ k) : dget (addCleaned acc vars) k = dget acc k := by
  induction vars generalizing acc with
  | nil => rfl
  | cons v vs ih =>
    calc dget (addCleaned acc (v :: vs)) k
        = dget (dinsert acc (clean v) v) k :=
          ih (fun u hu => h u (List.mem_cons_of_mem _ hu))
      _ = dget acc k := dget_dinsert_ne (Ne.symm (h v (List.mem_cons_self _ _)))

theorem cleanedToEnv_environ (st : EnvState) : (cleanedToEnv st).2.environ = st.environ := by
  obtain ⟨env, vn, cl⟩ := st
  cases cl <;> cases vn <;> rfl

theorem cleanedToEnv_of_some {st : EnvState} {m : PyDict}
    (h : st.cleaned_to_env = some m) : cleanedToEnv st = (m, st) := by
  obtain ⟨env, vn, cl⟩ := st
  cases cl with
  | none => exact absurd h (by simp)
  | some m' =>
    have h' : some m' = some m := h
    injection h' with h''
    subst h''
    rfl

theorem cleanedToEnv_live (st : EnvState) (h : st.consistent = true) :
    ∀ p ∈ (cleanedToEnv st).1, (dget st.environ p.2).isSome = true := by
  obtain ⟨env, vn, cl⟩ := st
  cases cl with
  | some m =>
    intro p hp
    simp only [EnvState.consistent, cleanedOk, Bool.and_eq_true, List.all_eq_true] at h
    exact h.2 p hp
  | none =>
    intro p hp
    rcases mem_addCleaned
        (show p ∈ addCleaned [] (varNames ⟨env, vn, none⟩).1 from hp) with h0 | h0
    · exact absurd h0 (List.not_mem_nil p)
    · exact varNames_live ⟨env, vn, none⟩ h p.2 h0

theorem cleanedToEnv_consistent (st : EnvState) (h : st.consistent = true) :
    (cleanedToEnv st).2.consistent = true := by
  obtain ⟨env, vn, cl⟩ := st
  cases cl with
  | some m => exact h
  | none =>
    cases vn with
    | some ns =>
      simp only [EnvState.consistent, cleanedToEnv, varNames, namesOk, cleanedOk,
        Bool.and_eq_true, List.all_eq_true] at h ⊢
      refine ⟨h.1, ?_⟩
      intro p hp
      rcases mem_addCleaned hp with h0 | h0
      · exact absurd h0 (List.not_mem_nil p)
      · exact h.1 p.2 h0
    | none =>
      simp only [EnvState.consistent, cleanedToEnv, varNames, namesOk, cleanedOk,
        Bool.and_eq_true, List.all_eq_true] at h ⊢
      constructor
      · intro n hn
        exact dget_isSome_of_mem_keys (List.mem_dedup.mp hn)
      · intro p hp
        rcases mem_addCleaned hp with h0 | h0
        · exact absurd h0 (List.not_mem_nil p)
        · exact dget_isSome_of_mem_keys (List.mem_dedup.mp h0)

/-! No resolution operation raises on a non-stale state. -/

theorem try_cleaned_isSome (st : EnvState) (key : String) (h : st.consistent = true) :
    (try_cleaned st key).1.isSome = true := by
  cases h' : dget (cleanedToEnv st).1 (clean key) with
  | none => simp [try_cleaned, h']
  | some envKey =>
    have hm : (clean key, envKey) ∈ (cleanedToEnv st).1 := dget_eq_some_mem h'
    have hlive := cleanedToEnv_live st h _ hm
    simp only [try_cleaned, h']
    rw [cleanedToEnv_environ]
    simpa using hlive

theorem lookupListPosix_isSome {ns : List String} {env : PyDict}
    (hns : ∀ n ∈ ns, (dget env n).isSome = true) (l : List String) :
    (lookupListPosix ns env l).isSome = true := by
  induction l with
  | nil => rfl
  | cons v rest ih =>
    rw [lookupListPosix]
    by_cases hc : ns.contains v = true
    · rw [if_pos hc]
      simpa using hns v (contains_iff.mp hc)
    · rw [if_neg hc]
      exact ih

theorem lookupListNT_isSome {ns : List String} {env : PyDict}
    (hns : ∀ n ∈ ns, (dget env n).isSome = true) (l : List String) :
    (lookupListNT ns env l).isSome = true := by
  induction l with
  | nil => rfl
  | cons v rest ih =>
    rw [lookupListNT]
    by_cases hc : ns.contains (pyUpper v) = true
    · rw [if_pos hc]
      simpa using hns _ (contains_iff.mp hc)
    · rw [if_neg hc]
      exact ih

theorem lookup_exact_posix_isSome (st : EnvState) (var : StrCollection)
    (h : st.consistent = true) : (lookup_exact_posix st var).1.isSome = true := by
  have hns := varNames_live st h
  cases var with
  | one s =>
    simp only [lookup_exact_posix]
    by_cases hc : (varNames st).1.contains s = true
    · rw [if_pos hc]
      rw [varNames_environ]
      simpa using hns _ (contains_iff.mp hc)
    · rw [if_neg hc]
      rfl
  | many l =>
    simp only [lookup_exact_posix]
    rw [varNames_environ]
    exact lookupListPosix_isSome hns l

theorem lookup_exact_nt_isSome (st : EnvState) (var : StrCollection)
    (h : st.consistent = true) : (lookup_exact_nt st var).1.isSome = true := by
  have hns := varNames_live st h
  cases var with
  | one s =>
    simp only [lookup_exact_nt]
    by_cases hc : (varNames st).1.contains (pyUpper s) = true
    · rw [if_pos hc]
      rw [varNames_environ]
      simpa using hns _ (contains_iff.mp hc)
    · rw [if_neg hc]
      rfl
  | many l =>
    simp only [lookup_exact_nt]
    rw [varNames_environ]
    exact lookupListNT_isSome hns l

theorem with_screaming_snake_case_isSome (st : EnvState) (f : String)
    (h : st.consistent = true) : (with_screaming_snake_case st f).1.isSome = true := by
  have hns := varNames_live st h
  have hcons := varNames_consistent st h
  simp only [with_screaming_snake_case]
  by_cases h1 : (varNames st).1.contains (pyUpper f) = true
  · rw [if_pos h1, varNames_environ]
    simpa using hns _ (contains_iff.mp h1)
  · rw [if_neg h1]
    by_cases h2 : (varNames st).1.contains f = true
    · rw [if_pos h2, varNames_environ]
      simpa using hns _ (contains_iff.mp h2)
    · rw [if_neg h2]
      exact try_cleaned_isSome _ _ hcons

theorem with_snake_case_isSome (st : EnvState) (f : String)
    (h : st.consistent = true) : (with_snake_case st f).1.isSome = true := by
  have hns := varNames_live st h
  have hcons := varNames_consistent st h
  simp only [with_snake_case]
  by_cases h1 : (varNames st).1.contains f = true
  · rw [if_pos h1, varNames_environ]
    simpa using hns _ (contains_iff.mp h1)
  · rw [if_neg h1]
    by_cases h2 : (varNames st).1.contains (pyUpper f) = true
    · rw [if_pos h2, varNames_environ]
      simpa using hns _ (contains_iff.mp h2)
    · rw [if_neg h2]
      exact try_cleaned_isSome _ _ hcons

theorem with_pascal_or_camel_case_isSome (st : EnvState) (f : String)
    (h : st.consistent = true) : (with_pascal_or_camel_case st f).1.isSome = true := by
  have hns := varNames_live st h
  have hcons := varNames_consistent st h
  simp only [with_pascal_or_camel_case]
  by_cases h1 : (varNames st).1.contains f = true
  · rw [if_pos h1, varNames_environ]
    simpa using hns _ (contains_iff.mp h1)
  · rw [if_neg h1]
    by_cases h2 : (varNames st).1.contains (pyUpper (to_snake_case f)) = true
    · rw [if_pos h2, varNames_environ]
      simpa using hns _ (contains_iff.mp h2)
    · rw [if_neg h2]
      by_cases h3 : (varNames st).1.contains (to_snake_case f) = true
      · rw [if_pos h3, varNames_environ]
        simpa using hns _ (contains_iff.mp h3)
      · rw [if_neg h3]
        exact try_cleaned_isSome _ _ hcons

/-- Claim C2 as stated is false on the code: with a cached name set containing
the stale name `"A"` that is absent from the live environment (the claim
explicitly includes such states), `lookup_exact` reads `environ["A"]` and
raises `KeyError` (modelled by the `none` result) instead of returning a
value or the missing marker. -/
theorem claim_C2_counterexample :
    (lookup_exact_posix
        { environ := [], var_names := some ["A"], cleaned_to_env := none }
        (StrCollection.one "A")).1 = none := by decide

/-- Claim C2 amended: provided every name mentioned by the caches is actually
present in the live environment (`st.consistent` — with genuinely stale
cached names the operations can raise `KeyError`), every resolution
operation — `try_cleaned`, both platform variants of `lookup_exact`, and
the three strategy functions — returns `some` result, i.e. a found string
value or the distinguished `missing` marker, and never raises. -/
theorem claim_C2_no_raise (st : EnvState) (key : String) (var : StrCollection)
    (h : st.consistent = true) :
    (try_cleaned st key).1.isSome = true
    ∧ (lookup_exact_nt st var).1.isSome = true
    ∧ (lookup_exact_posix st var).1.isSome = true
    ∧ (with_screaming_snake_case st key).1.isSome = true
    ∧ (with_snake_case st key).1.isSome = true
    ∧ (with_pascal_or_camel_case st key).1.isSome = true :=
  ⟨try_cleaned_isSome st key h, lookup_exact_nt_isSome st var h,
   lookup_exact_posix_isSome st var h, with_screaming_snake_case_isSome st key h,
   with_snake_case_isSome st key h, with_pascal_or_camel_case_isSome st key h⟩

/-- Witness for C2 at a concrete consistent state. -/
theorem claim_C2_witness :
    (try_cleaned (freshState [("A", "1")]) "A").1.isSome = true
    ∧ (lookup_exact_nt (freshState [("A", "1")]) (StrCollection.one "A")).1.isSome = true
    ∧ (lookup_exact_posix (freshState [("A", "1")]) (StrCollection.one "A")).1.isSome = true
    ∧ (with_screaming_snake_case (freshState [("A", "1")]) "A").1.isSome = true
    ∧ (with_snake_case (freshState [("A", "1")]) "A").1.isSome = true
    ∧ (with_pascal_or_camel_case (freshState [("A", "1")]) "A").1.isSome = true :=
  claim_C2_no_raise (freshState [("A", "1")]) "A" (StrCollection.one "A") (by decide)

/-! Reload and overlay merge: claims C4, C1, C10. -/

theorem reload_var_names (st : EnvState) (env : PyDict) :
    (reload st env).var_names
      = some ((varNames st).1 ++ newEnvVars (varNames st).1 env) := rfl

theorem reload_environ (st : EnvState) (env : PyDict) :
    (reload st env).environ = st.environ :=
  varNames_environ st

/-- Claim C4: for every input mapping, `names()` after `reload` is a superset
of `names()` before — a refresh never drops a previously-known name, even
when the input mapping or the live environment lacks names known before. -/
theorem claim_C4_reload_monotonic (st : EnvState) (env : PyDict) :
    (varNames st).1 ⊆ (varNames (reload st env)).1 := by
  intro n hn
  rw [varNames_of_some (reload_var_names st env)]
  exact List.mem_append_left _ hn

/-- Witness for C4: a concrete refresh with a mapping missing the known name. -/
theorem claim_C4_witness :
    (varNames (freshState [("A", "1")])).1
      ⊆ (varNames (reload (freshState [("A", "1")]) [("B", "2")])).1 :=
  claim_C4_reload_monotonic (freshState [("A", "1")]) [("B", "2")]

/-- Claim C1 as stated is false on the code: `update_with_dotenv` ends with
`environ.update(dotenv_values)`, a plain dict update, so a key that already
has a live value is OVERWRITTEN by the overlay value.  With live `KEY=live`
and overlay `KEY=file`, the live value afterwards is `"file"`, not the
claimed `"live"`. -/
theorem claim_C1_counterexample :
    dget (update_with_dotenv (freshState [("KEY", "live")]) [("KEY", "file")]).environ "KEY"
        = some "file"
    ∧ dget (update_with_dotenv (freshState [("KEY", "live")]) [("KEY", "file")]).environ "KEY"
        ≠ some "live" := by decide

/-- Claim C1 amended: after `update_with_dotenv` with an overlay mapping `dv`
(unique keys), a key bound in the overlay has the OVERLAY's value in the
live environment afterwards — overlay values overwrite pre-existing live
values, the opposite of the claimed precedence — while a key not in the
overlay keeps its live value, and every overlay key becomes known to the
registry's cached name set (in particular a key present only in the overlay
becomes available afterwards). -/
theorem claim_C1_overlay_merge (st : EnvState) (dv : PyDict) (k v : String) :
    ((pyKeys dv).Nodup → dget dv k = some v →
        dget (update_with_dotenv st dv).environ k = some v)
    ∧ (dget dv k = none →
        dget (update_with_dotenv st dv).environ k = dget st.environ k)
    ∧ (k ∈ pyKeys dv → k ∈ (varNames (update_with_dotenv st dv)).1) := by
  refine ⟨?_, ?_, ?_⟩
  · intro hnd hk
    show dget (dupdate (reload st dv).environ dv) k = some v
    exact dget_dupdate_of_some hnd hk _
  · intro hk
    show dget (dupdate (reload st dv).environ dv) k = dget st.environ k
    rw [dget_dupdate_of_none hk, reload_environ]
  · intro hk
    rw [varNames_of_some (show (update_with_dotenv st dv).var_names
        = some ((varNames st).1 ++ newEnvVars (varNames st).1 dv) from rfl)]
    by_cases hc : (varNames st).1.contains k = true
    · exact List.mem_append_left _ (contains_iff.mp hc)
    · refine List.mem_append_right _ ?_
      rw [newEnvVars]
      refine List.mem_filter.mpr ⟨List.mem_dedup.mpr hk, ?_⟩
      simp only [Bool.not_eq_true] at hc
      show (!(varNames st).1.contains k) = true
      rw [hc]
      rfl

/-- Witness for C1 at concrete inputs: the overlay-only key becomes live and
the colliding key takes the overlay value. -/
theorem claim_C1_witness :
    dget (update_with_dotenv (freshState [("KEY", "live")])
        [("KEY", "file"), ("NEW", "n")]).environ "NEW" = some "n" :=
  (claim_C1_overlay_merge (freshState [("KEY", "live")])
      [("KEY", "file"), ("NEW", "n")] "NEW" "n").1 (by decide) (by decide)

/-- Claim C10 as stated is false on the code: when a newly-seen name's cleaned
form collides with an existing cleaned-index key, `reload` overwrites the
entry of the previously-known name (`cleaned_to_env.update` is a plain dict
update).  Here the entry `"myvar" ↦ "my_var"` becomes `"myvar" ↦ "MY-VAR"`. -/
theorem claim_C10_counterexample :
    (reload { environ := [("my_var", "1")],
              var_names := some ["my_var"],
              cleaned_to_env := some [("myvar", "my_var")] }
      [("MY-VAR", "2")]).cleaned_to_env = some [("myvar", "MY-VAR")]
    ∧ some [("myvar", "MY-VAR")] ≠ some [("myvar", "my_var")] := by decide

/-- Claim C10 amended: `reload` never mutates the live environment, reads only
the keys of the mapping it is given (two mappings with the same key list
produce the same result state), leaves an unbuilt cleaned index unbuilt,
and extends a built cleaned index with entries for the new names — where an
existing entry is preserved unless some new name's cleaned form collides
with its key, in which case it is overwritten (last write wins). -/
theorem claim_C10_reload_frame (st : EnvState) (env env₂ m : PyDict) (k : String) :
    (reload st env).environ = st.environ
    ∧ (pyKeys env = pyKeys env₂ → reload st env = reload st env₂)
    ∧ (st.cleaned_to_env = none → (reload st env).cleaned_to_env = none)
    ∧ (st.cleaned_to_env = some m →
        (reload st env).cleaned_to_env
          = some (addCleaned m (newEnvVars (varNames st).1 env))
        ∧ ((∀ v0 ∈ newEnvVars (varNames st).1 env, clean v0 ≠ k) →
            dget (addCleaned m (newEnvVars (varNames st).1 env)) k = dget m k)) := by
  refine ⟨reload_environ st env, ?_, ?_, ?_⟩
  · intro h
    simp only [reload, newEnvVars, h]
  · intro h
    have h2 : (varNames st).2.cleaned_to_env = none := by rw [varNames_cleaned, h]
    show (match (varNames st).2.cleaned_to_env with
      | some m0 => some (addCleaned m0 (newEnvVars (varNames st).1 env))
      | none => none) = none
    rw [h2]
  · intro h
    have h2 : (varNames st).2.cleaned_to_env = some m := by rw [varNames_cleaned, h]
    constructor
    · show (match (varNames st).2.cleaned_to_env with
        | some m0 => some (addCleaned m0 (newEnvVars (varNames st).1 env))
        | none => none) = some (addCleaned m (newEnvVars (varNames st).1 env))
      rw [h2]
    · intro hno
      exact dget_addCleaned_nomatch hno

/-- Witness for C10: a concrete reload whose new name does not collide with
the existing cleaned entry leaves that entry unchanged. -/
theorem claim_C10_witness :
    dget (addCleaned [("myvar", "my_var")]
        (newEnvVars (varNames { environ := [("my_var", "1")],
                                var_names := some ["my_var"],
                                cleaned_to_env := some [("myvar", "my_var")] }).1
          [("OTHER", "2")])) "myvar"
      = dget [("myvar", "my_var")] "myvar" :=
  ((claim_C10_reload_frame
      { environ := [("my_var", "1")],
        var_names := some ["my_var"],
        cleaned_to_env := some [("myvar", "my_var")] }
      [("OTHER", "2")] [("OTHER", "2")] [("myvar", "my_var")] "myvar").2.2.2
    rfl).2 (by decide)

/-! Exact lookup and strategy order: claims C5, C6, C7. -/

theorem ne_true_of_eq_false {b : Bool} (h : b = false) : ¬(b = true) := by
  simp [h]

theorem lookupListPosix_append {ns : List String} {env : PyDict}
    {pre post : List String} {v : String}
    (hpre : ∀ u ∈ pre, ns.contains u = false) (hv : ns.contains v = true) :
    lookupListPosix ns env (pre ++ v :: post) = (dget env v).map LookupResult.found := by
  induction pre with
  | nil =>
    rw [List.nil_append, lookupListPosix, if_pos hv]
  | cons u us ih =>
    rw [List.cons_append, lookupListPosix,
      if_neg (ne_true_of_eq_false (hpre u (List.mem_cons_self _ _)))]
    exact ih (fun u' hu' => hpre u' (List.mem_cons_of_mem _ hu'))

theorem lookupListNT_append {ns : List String} {env : PyDict}
    {pre post : List String} {v : String}
    (hpre : ∀ u ∈ pre, ns.contains (pyUpper u) = false)
    (hv : ns.contains (pyUpper v) = true) :
    lookupListNT ns env (pre ++ v :: post)
      = (dget env (pyUpper v)).map LookupResult.found := by
  induction pre with
  | nil =>
    rw [List.nil_append, lookupListNT, if_pos hv]
  | cons u us ih =>
    rw [List.cons_append, lookupListNT,
      if_neg (ne_true_of_eq_false (hpre u (List.mem_cons_self _ _)))]
    exact ih (fun u' hu' => hpre u' (List.mem_cons_of_mem _ hu'))

/-- Claim C5: `lookup_exact` is platform-conditional.  On the case-normalizing
platform (`nt`) every input name — a single string or each element of a
sequence — is upper-cased before comparison against the known names, so
`"foo"` with live `FOO=bar` resolves to `"bar"`.  On the case-preserving
platform the literal input is compared unchanged, so `"Foo"` with live
`Foo=bar` resolves to `"bar"`, but with only `FOO=bar` present the result
is `missing`.  For a sequence, names are tried strictly in the given order
and the first match's live value is returned. -/
theorem claim_C5_lookup_exact :
    (∀ (st : EnvState) (ns : List String) (s : String), st.var_names = some ns →
        lookup_exact_nt st (StrCollection.one s)
          = (if ns.contains (pyUpper s) = true
              then (dget st.environ (pyUpper s)).map LookupResult.found
              else some LookupResult.missing, st))
    ∧ (∀ (st : EnvState) (ns : List String) (s : String), st.var_names = some ns →
        lookup_exact_posix st (StrCollection.one s)
          = (if ns.contains s = true
              then (dget st.environ s).map LookupResult.found
              else some LookupResult.missing, st))
    ∧ (∀ (st : EnvState) (ns : List String) (pre post : List String) (v : String),
        st.var_names = some ns → (∀ u ∈ pre, ns.contains u = false) →
        ns.contains v = true →
        (lookup_exact_posix st (StrCollection.many (pre ++ v :: post))).1
          = (dget st.environ v).map LookupResult.found)
    ∧ (∀ (st : EnvState) (ns : List String) (pre post : List String) (v : String),
        st.var_names = some ns → (∀ u ∈ pre, ns.contains (pyUpper u) = false) →
        ns.contains (pyUpper v) = true →
        (lookup_exact_nt st (StrCollection.many (pre ++ v :: post))).1
          = (dget st.environ (pyUpper v)).map LookupResult.found)
    ∧ (lookup_exact_nt (freshState [("FOO", "bar")]) (StrCollection.one "foo")).1
        = some (LookupResult.found "bar")
    ∧ (lookup_exact_posix (freshState [("Foo", "bar")]) (StrCollection.one "Foo")).1
        = some (LookupResult.found "bar")
    ∧ (lookup_exact_posix (freshState [("FOO", "bar")]) (StrCollection.one "Foo")).1
        = some LookupResult.missing := by
  refine ⟨?_, ?_, ?_, ?_, by decide, by decide, by decide⟩
  · intro st ns s h
    simp only [lookup_exact_nt]
    rw [varNames_of_some h]
    cases hc : ns.contains (pyUpper s) <;> simp [hc]
  · intro st ns s h
    simp only [lookup_exact_posix]
    rw [varNames_of_some h]
    cases hc : ns.contains s <;> simp [hc]
  · intro st ns pre post v h hpre hv
    simp only [lookup_exact_posix]
    rw [varNames_of_some h]
    exact lookupListPosix_append hpre hv
  · intro st ns pre post v h hpre hv
    simp only [lookup_exact_nt]
    rw [varNames_of_some h]
    exact lookupListNT_append hpre hv

/-- Witness for C5: in a sequence, the first known name (here the second
element) wins, and its live value is returned. -/
theorem claim_C5_witness :
    (lookup_exact_posix { environ := [("A", "1"), ("B", "2")],
                          var_names := some ["A", "B"],
                          cleaned_to_env := none }
        (StrCollection.many (["X"] ++ "B" :: ["A"]))).1
      = (dget [("A", "1"), ("B", "2")] "B").map LookupResult.found :=
  claim_C5_lookup_exact.2.2.1
    { environ := [("A", "1"), ("B", "2")], var_names := some ["A", "B"],
      cleaned_to_env := none }
    ["A", "B"] ["X"] ["A"] "B" rfl (by decide) (by decide)

/-- Claim C6: the pascal/camel-first strategy tries, in order, the literal
field name, the snake-cased field name upper-cased, the snake-cased field
name (already lowercase), and finally the cleaned-index fallback on the
original field name, returning the live value of the first known name; for
field `myEnvVar` with only `MY_ENV_VAR=y` set it returns `"y"`. -/
theorem claim_C6_pascal_camel_order :
    (∀ (st : EnvState) (ns : List String) (f : String), st.var_names = some ns →
        ns.contains f = true →
        with_pascal_or_camel_case st f
          = ((dget st.environ f).map LookupResult.found, st))
    ∧ (∀ (st : EnvState) (ns : List String) (f : String), st.var_names = some ns →
        ns.contains f = false →
        ns.contains (pyUpper (to_snake_case f)) = true →
        with_pascal_or_camel_case st f
          = ((dget st.environ (pyUpper (to_snake_case f))).map LookupResult.found, st))
    ∧ (∀ (st : EnvState) (ns : List String) (f : String), st.var_names = some ns →
        ns.contains f = false →
        ns.contains (pyUpper (to_snake_case f)) = false →
        ns.contains (to_snake_case f) = true →
        with_pascal_or_camel_case st f
          = ((dget st.environ (to_snake_case f)).map LookupResult.found, st))
    ∧ (∀ (st : EnvState) (ns : List String) (f : String), st.var_names = some ns →
        ns.contains f = false →
        ns.contains (pyUpper (to_snake_case f)) = false →
        ns.contains (to_snake_case f) = false →
        with_pascal_or_camel_case st f = try_cleaned st f)
    ∧ (with_pascal_or_camel_case (freshState [("MY_ENV_VAR", "y")]) "myEnvVar").1
        = some (LookupResult.found "y") := by
  refine ⟨?_, ?_, ?_, ?_, by decide⟩
  · intro st ns f h h1
    simp only [with_pascal_or_camel_case]
    rw [varNames_of_some h, if_pos h1]
  · intro st ns f h h1 h2
    simp only [with_pascal_or_camel_case]
    rw [varNames_of_some h, if_neg (ne_true_of_eq_false h1), if_pos h2]
  · intro st ns f h h1 h2 h3
    simp only [with_pascal_or_camel_case]
    rw [varNames_of_some h, if_neg (ne_true_of_eq_false h1),
      if_neg (ne_true_of_eq_false h2), if_pos h3]
  · intro st ns f h h1 h2 h3
    simp only [with_pascal_or_camel_case]
    rw [varNames_of_some h, if_neg (ne_true_of_eq_false h1),
      if_neg (ne_true_of_eq_false h2), if_neg (ne_true_of_eq_false h3)]

/-- Witness for C6: the second candidate (`snake_case` upper-cased) is the
first hit for `myEnvVar` when only `MY_ENV_VAR` is set. -/
theorem claim_C6_witness :
    with_pascal_or_camel_case { environ := [("MY_ENV_VAR", "y")],
                                var_names := some ["MY_ENV_VAR"],
                                cleaned_to_env := none } "myEnvVar"
      = ((dget [("MY_ENV_VAR", "y")] (pyUpper (to_snake_case "myEnvVar"))).map
            LookupResult.found,
         { environ := [("MY_ENV_VAR", "y")],
           var_names := some ["MY_ENV_VAR"],
           cleaned_to_env := none }) :=
  claim_C6_pascal_camel_order.2.1
    { environ := [("MY_ENV_VAR", "y")], var_names := some ["MY_ENV_VAR"],
      cleaned_to_env := none }
    ["MY_ENV_VAR"] "myEnvVar" rfl (by decide) (by decide)

/-- Claim C7: the cleaned-index fallback `try_cleaned` normalizes the field
name exactly as passed in, looks the normalized key up in the cleaned
index, and returns the live value of the matched original variable name, or
the missing marker when the normalized key is absent; the hyphenated field
`my-env-var` resolves against live `MYENVVAR=z`, returning `"z"`. -/
theorem claim_C7_try_cleaned :
    (∀ (st : EnvState) (key orig : String),
        dget (cleanedToEnv st).1 (clean key) = some orig →
        (try_cleaned st key).1 = (dget st.environ orig).map LookupResult.found)
    ∧ (∀ (st : EnvState) (key : String),
        dget (cleanedToEnv st).1 (clean key) = none →
        (try_cleaned st key).1 = some LookupResult.missing)
    ∧ (try_cleaned (freshState [("MYENVVAR", "z")]) "my-env-var").1
        = some (LookupResult.found "z") := by
  refine ⟨?_, ?_, by decide⟩
  · intro st key orig h
    simp only [try_cleaned, h]
    rw [cleanedToEnv_environ]
  · intro st key h
    simp only [try_cleaned, h]

/-- Witness for C7: the cleaned index of a fresh state over `MYENVVAR=z` maps
the normalized form of `my-env-var` to `MYENVVAR`, whose live value is
read. -/
theorem claim_C7_witness :
    (try_cleaned (freshState [("MYENVVAR", "z")]) "my-env-var").1
      = (dget (freshState [("MYENVVAR", "z")]).environ "MYENVVAR").map
          LookupResult.found :=
  claim_C7_try_cleaned.1 (freshState [("MYENVVAR", "z")]) "my-env-var" "MYENVVAR"
    (by decide)

/-! Diagnostics: claims C3 and C8. -/

/-- Claim C3 as stated is false on the code: with supplied `{"myEnvVar": 1}`
and required `{"my_env_var", "other"}`, the computed missing set is
`required - supplied = {"my_env_var", "other"}`, not the claimed
`{"other"}` — a normalized-form collision only appends the hint, it does
not remove the colliding field from the missing set. -/
theorem claim_C3_counterexample :
    (mkMissingFields ["myEnvVar"] ["myEnvVar"]
        [⟨"my_env_var", true, true⟩, ⟨"other", true, true⟩]).missing_fields
      = ["my_env_var", "other"]
    ∧ (mkMissingFields ["myEnvVar"] ["myEnvVar"]
        [⟨"my_env_var", true, true⟩, ⟨"other", true, true⟩]).missing_fields
      ≠ ["other"]
    ∧ (mkMissingFields ["myEnvVar"] ["myEnvVar"]
        [⟨"my_env_var", true, true⟩, ⟨"other", true, true⟩]).hint_appended
      = true := by decide

/-- Claim C3 amended: `MissingFields` computes the missing set as exactly the
required fields (those whose `default` and `default_factory` are both
`MISSING`) minus the supplied keyword names, and — for non-empty field
names, as Python identifiers always are — the naming-transform hint plus
documentation pointer is appended iff some missing field's normalized form
equals the normalized form of some supplied input key.  In particular, for
supplied `{"myEnvVar": 1}` and required `{"my_env_var", "other"}` it
reports exactly `{"my_env_var", "other"}` missing and includes the hint. -/
theorem claim_C3_missing_fields (obj_keys ks : List String)
    (cls_fields : List PyField) (n : String)
    (hne : ∀ f ∈ cls_fields, f.name ≠ "") :
    (n ∈ (mkMissingFields obj_keys ks cls_fields).missing_fields ↔
      (∃ f ∈ cls_fields, f.name = n ∧ f.default_is_MISSING = true
        ∧ f.default_factory_is_MISSING = true) ∧ n ∉ ks)
    ∧ ((mkMissingFields obj_keys ks cls_fields).hint_appended = true ↔
      ∃ m ∈ (mkMissingFields obj_keys ks cls_fields).missing_fields,
        normalize m ∈ obj_keys.map normalize)
    ∧ (mkMissingFields ["myEnvVar"] ["myEnvVar"]
        [⟨"my_env_var", true, true⟩, ⟨"other", true, true⟩]).missing_fields
      = ["my_env_var", "other"]
    ∧ (mkMissingFields ["myEnvVar"] ["myEnvVar"]
        [⟨"my_env_var", true, true⟩, ⟨"other", true, true⟩]).hint_appended
      = true := by
  refine ⟨?_, ?_, by decide, by decide⟩
  · simp only [mkMissingFields, List.mem_map, List.mem_filter, Bool.and_eq_true,
      Bool.not_eq_true']
    constructor
    · rintro ⟨f, ⟨hmem, ⟨hks, hd⟩, hdf⟩, rfl⟩
      refine ⟨⟨f, hmem, rfl, hd, hdf⟩, fun hn => ?_⟩
      rw [contains_iff.mpr hn] at hks
      cases hks
    · rintro ⟨⟨f, hmem, rfl, hd, hdf⟩, hn⟩
      refine ⟨f, ⟨hmem, ⟨?_, hd⟩, hdf⟩, rfl⟩
      cases hc : ks.contains f.name with
      | false => rfl
      | true => exact absurd (contains_iff.mp hc) hn
  · have hdef : (mkMissingFields obj_keys ks cls_fields).hint_appended
        = (match (mkMissingFields obj_keys ks cls_fields).missing_fields.find?
            (fun f => (obj_keys.map normalize).contains (normalize f)) with
          | some f => f != ""
          | none => false) := rfl
    rw [hdef]
    cases hfind : (mkMissingFields obj_keys ks cls_fields).missing_fields.find?
        (fun f => (obj_keys.map normalize).contains (normalize f)) with
    | none =>
      simp only []
      constructor
      · intro h
        cases h
      · rintro ⟨m, hm, hmem⟩
        have := List.find?_eq_none.mp hfind m hm
        exact absurd (contains_iff.mpr hmem) this
    | some f =>
      have hp := List.find?_some hfind
      have hmem : f ∈ (mkMissingFields obj_keys ks cls_fields).missing_fields :=
        List.mem_of_find?_eq_some hfind
      have hf : f ≠ "" := by
        rcases List.mem_map.mp
            (show f ∈ (cls_fields.filter _).map PyField.name from hmem) with ⟨fl, hfl, heq⟩
        exact heq ▸ hne fl (List.mem_filter.mp hfl).1
      simp only []
      constructor
      · intro _
        exact ⟨f, hmem, contains_iff.mp hp⟩
      · intro _
        exact bne_iff_ne.mpr hf

/-- Witness for C3 at the spec's own example inputs. -/
theorem claim_C3_witness :
    "other" ∈ (mkMissingFields ["myEnvVar"] ["myEnvVar"]
        [⟨"my_env_var", true, true⟩, ⟨"other", true, true⟩]).missing_fields
      ↔ (∃ f ∈ [(⟨"my_env_var", true, true⟩ : PyField), ⟨"other", true, true⟩],
            f.name = "other" ∧ f.default_is_MISSING = true
            ∧ f.default_factory_is_MISSING = true)
        ∧ "other" ∉ ["myEnvVar"] :=
  (claim_C3_missing_fields ["myEnvVar"] ["myEnvVar"]
    [⟨"my_env_var", true, true⟩, ⟨"other", true, true⟩] "other" (by decide)).1

/-- Claim C8: diagnostic messages are deterministic and stable: a second call
of `message` on the same `ParseError` object yields the same string and the
same object state (despite the property's side effect on `kwargs`), and two
`MissingVars` errors built from equal constructor inputs yield equal
messages (`MissingVars.message` is a pure rendering). -/
theorem claim_C8_message_deterministic :
    (∀ p : ParseError, ((p.message).2).message = ((p.message).1, (p.message).2))
    ∧ (∀ (c : String) (mv : List (String × String × String)) (e₁ e₂ : MissingVars),
        e₁ = mkMissingVars c mv → e₂ = mkMissingVars c mv →
        e₁.message = e₂.message) := by
  constructor
  · intro p
    cases hj : p.json_object with
    | none => simp [ParseError.message, hj]
    | some j => simp [ParseError.message, hj, dinsert_dinsert_same]
  · intro c mv e₁ e₂ h₁ h₂
    rw [h₁, h₂]

/-- Witness for C8 at concrete constructor inputs. -/
theorem claim_C8_witness :
    (mkMissingVars "Env1" [("a", "int", "1"), ("b", "str", "s")]).message
      = (mkMissingVars "Env1" [("a", "int", "1"), ("b", "str", "s")]).message :=
  claim_C8_message_deterministic.2 "Env1" [("a", "int", "1"), ("b", "str", "s")]
    _ _ rfl rfl

end DW
